import Mathlib

/-!
Verification of the process-snapshot acquisition and caching subsystem of a
terminal process monitor (sources: src/processes.rs, src/app.rs).

Shallow embedding conventions:
* `f32` values (CPU percentages) are carried around by the embedded code but
  never subjected to arithmetic, so they are modelled by the opaque scalar
  type `F32 := Int`.
* `u64` / `usize` quantities are modelled by `Nat`.
* `Instant` timestamps are modelled by a `Nat` parameter `now` passed to each
  operation; `t.elapsed()` becomes `now - t` (saturating, like the real
  quantity which is nonnegative).
* `HashMap` is modelled by an association list `List (Nat × α)` with
  first-match lookup; insertion of a fresh key conses, update of an existing
  key rewrites the matching entry in place.
* External shell-outs (the `ps` invocations of the metadata caches, the
  `kill`/`taskkill` invocation) are modelled by oracle arguments giving the
  observable outcome of the command.
* The `tokio` mutexes serialize all access inside one collection cycle, so the
  cycle is embedded as a pure state-passing function.
-/

/-- `f32` modelled as an opaque scalar: the embedded code only stores, copies
and pushes these values, never computes with them. -/
abbrev F32 := Int

/-- Association-list lookup, modelling `HashMap::get`. -/
def alookup {α : Type} (m : List (Nat × α)) (k : Nat) : Option α :=
  match m with
  | [] => none
  | (k', v) :: rest => if k' = k then some v else alookup rest k

/-- In-place update of an existing key, modelling `HashMap::get_mut` followed
by mutation of the entry. -/
def aset {α : Type} (m : List (Nat × α)) (k : Nat) (v : α) : List (Nat × α) :=
  m.map (fun e => if e.1 = k then (k, v) else e)

/-- `enum ProcessStatus` from src/processes.rs. -/
inductive ProcessStatus where
  | Running
  | Sleeping
  | Stopped
  | Zombie
  | Unknown
  deriving DecidableEq, Repr

/-- The subset of `sysinfo::ProcessStatus` the code distinguishes: the four
named variants plus a catch-all for every other OS status. -/
inductive SysStatus where
  | Run
  | Sleep
  | Stop
  | Zombie
  | Other
  deriving DecidableEq, Repr

/-- The `match status` conversion in `get_processes` (src/processes.rs:405-411). -/
def convertStatus : SysStatus → ProcessStatus
  | .Run => .Running
  | .Sleep => .Sleeping
  | .Stop => .Stopped
  | .Zombie => .Zombie
  | .Other => .Unknown

/-- `struct ProcessInfo` from src/processes.rs. -/
structure ProcessInfo where
  pid : Nat
  name : String
  cpu_usage : F32
  memory : Nat
  status : ProcessStatus
  user : String
  start_time : Nat
  cmd : List String
  threads : Option Nat
  parent : Option Nat
  cpu_history : List F32
  memory_history : List Nat
  last_updated : Nat
  deriving DecidableEq, Repr

/-- `ProcessInfo::new` (src/processes.rs:51-78): histories are seeded with the
single initial sample; `Instant::now()` is the explicit `now` argument. -/
def ProcessInfo.new (pid : Nat) (name : String) (cpu_usage : F32) (memory : Nat)
    (status : ProcessStatus) (user : String) (start_time : Nat) (cmd : List String)
    (threads : Option Nat) (parent : Option Nat) (now : Nat) : ProcessInfo :=
  { pid := pid
    name := name
    cpu_usage := cpu_usage
    memory := memory
    status := status
    user := user
    start_time := start_time
    cmd := cmd
    threads := threads
    parent := parent
    cpu_history := [cpu_usage]
    memory_history := [memory]
    last_updated := now }

/-- `ProcessInfo::update_history` (src/processes.rs:80-92): when the CPU
history already holds 60 samples both histories drop their oldest entry
(`Vec::remove(0)`), then the fresh sample is pushed and the instantaneous
fields and timestamp are overwritten. -/
def ProcessInfo.update_history (p : ProcessInfo) (cpu : F32) (memory : Nat)
    (now : Nat) : ProcessInfo :=
  let ch := if p.cpu_history.length ≥ 60 then p.cpu_history.drop 1 else p.cpu_history
  let mh := if p.cpu_history.length ≥ 60 then p.memory_history.drop 1 else p.memory_history
  { p with
    cpu_usage := cpu
    memory := memory
    cpu_history := ch ++ [cpu]
    memory_history := mh ++ [memory]
    last_updated := now }

/-- Iterating `update_history` over a list of `(cpu, memory)` samples. -/
def ProcessInfo.applyUpdates (p : ProcessInfo) (us : List (F32 × Nat)) (now : Nat) :
    ProcessInfo :=
  us.foldl (fun q u => q.update_history u.1 u.2 now) p

theorem applyUpdates_cons (p : ProcessInfo) (u : F32 × Nat) (us : List (F32 × Nat))
    (now : Nat) :
    p.applyUpdates (u :: us) now = (p.update_history u.1 u.2 now).applyUpdates us now := by
  simp [ProcessInfo.applyUpdates]

theorem drop_one_shift {α : Type} (l X : List α) (hl : 1 ≤ l.length) (k : Nat) :
    (l.drop 1 ++ X).drop k = (l ++ X).drop (k + 1) := by
  have h1 : (l ++ X).drop 1 = l.drop 1 ++ X := List.drop_append_of_le_length hl
  calc (l.drop 1 ++ X).drop k = ((l ++ X).drop 1).drop k := by rw [h1]
    _ = (l ++ X).drop (k + 1) := by rw [List.drop_drop, Nat.add_comm]

/-- Core history invariant: starting from histories of equal length `L` with
`1 ≤ L ≤ 60`, folding `update_history` over `us` leaves each history equal to
the last `min (L + us.length) 60` pushed values, in arrival order. -/
theorem applyUpdates_histories (us : List (F32 × Nat)) (p : ProcessInfo) (now : Nat)
    (hlen : p.cpu_history.length = p.memory_history.length)
    (hpos : 1 ≤ p.cpu_history.length) (hcap : p.cpu_history.length ≤ 60) :
    (p.applyUpdates us now).cpu_history =
      (p.cpu_history ++ us.map Prod.fst).drop (p.cpu_history.length + us.length - 60) ∧
    (p.applyUpdates us now).memory_history =
      (p.memory_history ++ us.map Prod.snd).drop (p.cpu_history.length + us.length - 60) ∧
    (p.applyUpdates us now).cpu_history.length = min (p.cpu_history.length + us.length) 60 ∧
    (p.applyUpdates us now).memory_history.length = min (p.cpu_history.length + us.length) 60 := by
  induction us generalizing p with
  | nil =>
      have h0 : p.cpu_history.length - 60 = 0 := by omega
      refine ⟨?_, ?_, ?_, ?_⟩ <;>
        simp [ProcessInfo.applyUpdates, h0, hlen.symm] <;> omega
  | cons u rest ih =>
      set q := p.update_history u.1 u.2 now with hq
      have hqc : q.cpu_history =
          (if p.cpu_history.length ≥ 60 then p.cpu_history.drop 1 else p.cpu_history) ++ [u.1] := by
        simp [hq, ProcessInfo.update_history]
      have hqm : q.memory_history =
          (if p.cpu_history.length ≥ 60 then p.memory_history.drop 1 else p.memory_history) ++ [u.2] := by
        simp [hq, ProcessInfo.update_history]
      by_cases hfull : p.cpu_history.length ≥ 60
      · -- the history is saturated at 60: the oldest sample is evicted
        have hL : p.cpu_history.length = 60 := by omega
        have hM : p.memory_history.length = 60 := by omega
        have hqc' : q.cpu_history = p.cpu_history.drop 1 ++ [u.1] := by
          simp [hqc, hfull]
        have hqm' : q.memory_history = p.memory_history.drop 1 ++ [u.2] := by
          simp [hqm, hfull]
        have hqlen : q.cpu_history.length = q.memory_history.length := by
          simp [hqc', hqm', hL, hM]
        have hqpos : 1 ≤ q.cpu_history.length := by simp [hqc']
        have hqcap : q.cpu_history.length ≤ 60 := by simp [hqc', hL]
        obtain ⟨ih1, ih2, ih3, ih4⟩ := ih q hqlen hqpos hqcap
        have hq60 : q.cpu_history.length = 60 := by simp [hqc', hL]
        have happ : p.applyUpdates (u :: rest) now = q.applyUpdates rest now := by
          rw [applyUpdates_cons]
        refine ⟨?_, ?_, ?_, ?_⟩
        · rw [happ, ih1, hq60]
          have e1 : q.cpu_history ++ rest.map Prod.fst =
              p.cpu_history.drop 1 ++ (u.1 :: rest.map Prod.fst) := by simp [hqc']
          have e2 : 60 + rest.length - 60 = rest.length := by omega
          have e3 : p.cpu_history.length + (u :: rest).length - 60 = rest.length + 1 := by
            simp only [List.length_cons, hL]
            omega
          rw [e1, e2, e3, List.map_cons]
          exact drop_one_shift p.cpu_history (u.1 :: rest.map Prod.fst) (by omega) rest.length
        · rw [happ, ih2, hq60]
          have e1 : q.memory_history ++ rest.map Prod.snd =
              p.memory_history.drop 1 ++ (u.2 :: rest.map Prod.snd) := by simp [hqm']
          have e2 : 60 + rest.length - 60 = rest.length := by omega
          have e3 : p.cpu_history.length + (u :: rest).length - 60 = rest.length + 1 := by
            simp only [List.length_cons, hL]
            omega
          rw [e1, e2, e3, List.map_cons]
          exact drop_one_shift p.memory_history (u.2 :: rest.map Prod.snd) (by omega) rest.length
        · rw [happ, ih3, hq60]
          simp only [List.length_cons, hL]
          omega
        · rw [happ, ih4, hq60]
          simp only [List.length_cons, hL]
          omega
      · -- below capacity: the new sample is simply appended
        have hqc' : q.cpu_history = p.cpu_history ++ [u.1] := by simp [hqc, hfull]
        have hqm' : q.memory_history = p.memory_history ++ [u.2] := by simp [hqm, hfull]
        have hqlen : q.cpu_history.length = q.memory_history.length := by
          simp [hqc', hqm', hlen]
        have hqpos : 1 ≤ q.cpu_history.length := by simp [hqc']
        have hqcap : q.cpu_history.length ≤ 60 := by
          simp [hqc']
          omega
        obtain ⟨ih1, ih2, ih3, ih4⟩ := ih q hqlen hqpos hqcap
        have hqL : q.cpu_history.length = p.cpu_history.length + 1 := by simp [hqc']
        have happ : p.applyUpdates (u :: rest) now = q.applyUpdates rest now := by
          rw [applyUpdates_cons]
        refine ⟨?_, ?_, ?_, ?_⟩
        · rw [happ, ih1, hqL]
          have e1 : q.cpu_history ++ rest.map Prod.fst =
              p.cpu_history ++ (u :: rest).map Prod.fst := by simp [hqc']
          have e2 : p.cpu_history.length + 1 + rest.length - 60 =
              p.cpu_history.length + (u :: rest).length - 60 := by
            simp only [List.length_cons]
            omega
          rw [e1, e2]
        · rw [happ, ih2, hqL]
          have e1 : q.memory_history ++ rest.map Prod.snd =
              p.memory_history ++ (u :: rest).map Prod.snd := by simp [hqm']
          have e2 : p.cpu_history.length + 1 + rest.length - 60 =
              p.cpu_history.length + (u :: rest).length - 60 := by
            simp only [List.length_cons]
            omega
          rw [e1, e2]
        · rw [happ, ih3, hqL]
          simp only [List.length_cons]
          omega
        · rw [happ, ih4, hqL]
          simp only [List.length_cons]
          omega

/-- C3: for every ProcessInfo and every sequence of N `update_history` calls after
construction, each history holds exactly the last `min (N+1) 60` pushed values
(the seed sample followed by one value per update) in arrival order, with the
oldest values evicted first once the 60-sample cap is reached; the length is
`N + 1` for `N < 60`, exactly `60` for `N ≥ 60`, and never exceeds `60`.
(`(N + 1) - 60` is truncated subtraction, so for `N < 60` nothing is dropped.) -/
theorem claim_C3_history_bound (pid : Nat) (name : String) (c0 : F32) (m0 : Nat)
    (status : ProcessStatus) (user : String) (start_time : Nat) (cmd : List String)
    (threads : Option Nat) (parent : Option Nat) (now now' : Nat)
    (us : List (F32 × Nat)) :
    ((ProcessInfo.new pid name c0 m0 status user start_time cmd threads parent
        now).applyUpdates us now').cpu_history =
      (c0 :: us.map Prod.fst).drop (us.length + 1 - 60) ∧
    ((ProcessInfo.new pid name c0 m0 status user start_time cmd threads parent
        now).applyUpdates us now').memory_history =
      (m0 :: us.map Prod.snd).drop (us.length + 1 - 60) ∧
    ((ProcessInfo.new pid name c0 m0 status user start_time cmd threads parent
        now).applyUpdates us now').cpu_history.length = min (us.length + 1) 60 ∧
    ((ProcessInfo.new pid name c0 m0 status user start_time cmd threads parent
        now).applyUpdates us now').memory_history.length = min (us.length + 1) 60 ∧
    ((ProcessInfo.new pid name c0 m0 status user start_time cmd threads parent
        now).applyUpdates us now').cpu_history.length ≤ 60 := by
  have h := applyUpdates_histories us
    (ProcessInfo.new pid name c0 m0 status user start_time cmd threads parent now) now'
    (by simp [ProcessInfo.new]) (by simp [ProcessInfo.new]) (by simp [ProcessInfo.new])
  have hc : (ProcessInfo.new pid name c0 m0 status user start_time cmd threads parent
      now).cpu_history = [c0] := by simp [ProcessInfo.new]
  have hm : (ProcessInfo.new pid name c0 m0 status user start_time cmd threads parent
      now).memory_history = [m0] := by simp [ProcessInfo.new]
  rw [hc, hm] at h
  obtain ⟨h1, h2, h3, h4⟩ := h
  have hidx : [c0].length + us.length - 60 = us.length + 1 - 60 := by simp; omega
  have hidx' : ([c0] : List F32).length + us.length = us.length + 1 := by simp; omega
  refine ⟨?_, ?_, ?_, ?_, ?_⟩
  · rw [h1, hidx]
    simp
  · rw [h2]
    have : ([c0] : List F32).length + us.length - 60 = us.length + 1 - 60 := hidx
    rw [this]
    simp
  · rw [h3, hidx']
  · rw [h4, hidx']
  · rw [h3]
    omega

/-- `struct SystemResources` from src/app.rs. The `f32` memory percentages
pushed into `memory_history` are modelled over `ℚ`; note that `ℚ` division by
zero silently yields `0` whereas `f32` yields `NaN`/`inf` — the claims below are
therefore stated about the divisor `total_memory` being zero, which is the
exact condition under which the real code divides by zero. -/
structure SystemResources where
  cpu_usage : F32
  used_memory : Nat
  total_memory : Nat
  cpu_history : List F32
  memory_history : List Rat
  deriving DecidableEq, Repr

/-- `SystemResources::new` (src/app.rs:40-48): `total_memory` starts at the
floor value 1 to avoid division by zero. -/
def SystemResources.new : SystemResources :=
  { cpu_usage := 0
    used_memory := 0
    total_memory := 1
    cpu_history := List.replicate 60 0
    memory_history := List.replicate 60 0 }

/-- `SystemResources::update` (src/app.rs:50-64): the three instantaneous
fields are overwritten unconditionally (including `total_memory := total`),
then both histories are trimmed at 60 and the new samples pushed. -/
def SystemResources.update (r : SystemResources) (cpu : F32) (used total : Nat) :
    SystemResources :=
  let ch := if r.cpu_history.length ≥ 60 then r.cpu_history.drop 1 else r.cpu_history
  let mh := if r.cpu_history.length ≥ 60 then r.memory_history.drop 1 else r.memory_history
  { cpu_usage := cpu
    used_memory := used
    total_memory := total
    cpu_history := ch ++ [cpu]
    memory_history := mh ++ [(used : Rat) / (total : Rat) * 100] }

/-- `SystemResources::memory_percentage` (src/app.rs:66-68); its divisor is
`total_memory`. -/
def SystemResources.memory_percentage (r : SystemResources) : Rat :=
  (r.used_memory : Rat) / (r.total_memory : Rat) * 100

/-- Iterating `SystemResources::update` over a list of `(cpu, used, total)`
samples, as the consumer loop does once per received `SystemInfo` message. -/
def SystemResources.applyUpdates (r : SystemResources) (us : List (F32 × Nat × Nat)) :
    SystemResources :=
  us.foldl (fun r u => r.update u.1 u.2.1 u.2.2) r

/-- C2 counterexample: the claim says `total_memory` is never zero after any
sequence of `update` calls including `total = 0`, but `update` overwrites
`total_memory` with its argument unconditionally, so a single
`update(0, 0, 0)` after `new()` drives `total_memory` to zero — at which point
`memory_percentage`'s divisor is zero. -/
theorem claim_C2_counterexample :
    (SystemResources.new.update 0 0 0).total_memory = 0 ∧
    ((SystemResources.new.update 0 0 0).total_memory : Rat) = 0 := by
  constructor
  · rfl
  · norm_num [SystemResources.update]

/-- C2 (amended): `new()` initializes `total_memory` to the nonzero floor 1,
and `update` stores its `total` argument unconditionally; hence `total_memory`
(the divisor of `memory_percentage`) is nonzero after any update sequence in
which every call passes a nonzero `total`, but a single `update` with
`total = 0` makes it zero. -/
theorem claim_C2_total_memory_nonzero (us : List (F32 × Nat × Nat))
    (h : ∀ u ∈ us, u.2.2 ≠ 0) :
    (SystemResources.new.applyUpdates us).total_memory ≠ 0 ∧
    ((SystemResources.new.applyUpdates us).total_memory : Rat) ≠ 0 := by
  have key : ∀ (vs : List (F32 × Nat × Nat)) (r : SystemResources),
      r.total_memory ≠ 0 → (∀ u ∈ vs, u.2.2 ≠ 0) →
      (vs.foldl (fun r u => r.update u.1 u.2.1 u.2.2) r).total_memory ≠ 0 := by
    intro vs
    induction vs with
    | nil => intro r hr _; simpa using hr
    | cons v rest ih =>
        intro r _ hall
        simp only [List.foldl_cons]
        exact ih (r.update v.1 v.2.1 v.2.2)
          (by simpa [SystemResources.update] using hall v (by simp))
          (fun u hu => hall u (by simp [hu]))
  have h0 : SystemResources.new.total_memory ≠ 0 := by
    simp [SystemResources.new]
  have hne := key us SystemResources.new h0 h
  refine ⟨by simpa [SystemResources.applyUpdates] using hne, ?_⟩
  have : (SystemResources.new.applyUpdates us).total_memory ≠ 0 := by
    simpa [SystemResources.applyUpdates] using hne
  exact_mod_cast Nat.cast_ne_zero.mpr this

/-- Witness for C2 (amended) at the single update `(0, 5, 10)`. -/
theorem claim_C2_total_memory_nonzero_witness :
    (∀ u ∈ [((0 : F32), (5 : Nat), (10 : Nat))], u.2.2 ≠ 0) ∧
    (SystemResources.new.applyUpdates [((0 : F32), (5 : Nat), (10 : Nat))]).total_memory ≠ 0 :=
  ⟨by decide, (claim_C2_total_memory_nonzero _ (by decide)).1⟩

/-- Interpretation of the `ps -o user= -p <pid>` shell-out in `UserCache::get_user`
(src/processes.rs:128-150): `none` models a failed spawn or a failed command
(and, equivalently, the non-Unix fallback), `some s` models the trimmed stdout
of a successful run; empty output is replaced by the sentinel "unknown". -/
def runUserQuery : Option String → String
  | some s => if s = "" then "unknown" else s
  | none => "unknown"

/-- `struct UserCache` (src/processes.rs:104-107): pid → user map plus the
single cache-wide timestamp of the last clear. -/
structure UserCache where
  cache : List (Nat × String)
  last_refresh : Nat
  deriving DecidableEq, Repr

/-- `UserCache::new` (src/processes.rs:110-115). -/
def UserCache.new (now : Nat) : UserCache :=
  { cache := [], last_refresh := now }

/-- `UserCache::get_user` (src/processes.rs:117-154): clear the whole map and
reset the timestamp once more than 30 seconds have elapsed since the last
clear; then serve a cached value if present; otherwise interpret the external
query, store the resulting string (sentinel included) and return it. -/
def UserCache.get_user (c : UserCache) (now pid : Nat) (queryOut : Option String) :
    String × UserCache :=
  let c := if now - c.last_refresh > 30 then UserCache.new now else c
  match alookup c.cache pid with
  | some u => (u, c)
  | none =>
      let user := runUserQuery queryOut
      (user, { c with cache := (pid, user) :: c.cache })

/-- `struct ThreadCache` (src/processes.rs:158-161). -/
structure ThreadCache where
  cache : List (Nat × Nat)
  last_refresh : Nat
  deriving DecidableEq, Repr

/-- `ThreadCache::new` (src/processes.rs:164-169). -/
def ThreadCache.new (now : Nat) : ThreadCache :=
  { cache := [], last_refresh := now }

/-- `ThreadCache::get_thread_count` (src/processes.rs:171-208): clear the whole
map and reset the timestamp once more than 5 seconds have elapsed; then serve a
cached count if present; otherwise run the external `ps -o nlwp=` query
(`queryOut = none` models spawn failure, command failure, unparseable output,
or the non-Unix fallback) — a successful count is stored and returned, a failed
query returns `none` WITHOUT storing anything (`if let Some(count) = thread_count
{ self.cache.insert(pid, count); }`). -/
def ThreadCache.get_thread_count (c : ThreadCache) (now pid : Nat)
    (queryOut : Option Nat) : Option Nat × ThreadCache :=
  let c := if now - c.last_refresh > 5 then ThreadCache.new now else c
  match alookup c.cache pid with
  | some n => (some n, c)
  | none =>
      match queryOut with
      | some n => (some n, { c with cache := (pid, n) :: c.cache })
      | none => (none, c)

/-- C7 counterexample: the claim states that on a cache miss "the external
query runs and its result is stored and returned" for both caches; but when the
thread-count query fails, `get_thread_count` returns the absent result without
storing anything — here the lookup for pid 5 leaves the map empty. -/
theorem claim_C7_counterexample :
    ThreadCache.get_thread_count ⟨[], 0⟩ 0 5 none = (none, ⟨[], 0⟩) ∧
    alookup (ThreadCache.get_thread_count ⟨[], 0⟩ 0 5 none).2.cache 5 = none :=
  ⟨rfl, rfl⟩

/-- C7 (amended): for every metadata lookup, if the elapsed time since the last
cache-wide clear exceeds the TTL (30 s for `get_user`, 5 s for
`get_thread_count`), the entire map is cleared first and the clear timestamp
reset (whole-cache invalidation), making the lookup behave exactly as on a
freshly cleared cache; then a cached value for the pid, if present, is returned
without an external query (the outcome is independent of, and leaves the cache
unchanged by, the query oracle); otherwise the external query runs and its
result is returned — the user cache stores the resolved string
unconditionally, while the thread cache stores only a successful count and
leaves the map untouched when the query fails. -/
theorem claim_C7_metadata_cache_lookup (uc : UserCache) (tc : ThreadCache)
    (now pid : Nat) (q : Option String) (qt : Option Nat) :
    (30 < now - uc.last_refresh →
      uc.get_user now pid q = (UserCache.new now).get_user now pid q) ∧
    (now - uc.last_refresh ≤ 30 → ∀ u, alookup uc.cache pid = some u →
      uc.get_user now pid q = (u, uc)) ∧
    (now - uc.last_refresh ≤ 30 → alookup uc.cache pid = none →
      uc.get_user now pid q =
        (runUserQuery q, { uc with cache := (pid, runUserQuery q) :: uc.cache })) ∧
    (5 < now - tc.last_refresh →
      tc.get_thread_count now pid qt = (ThreadCache.new now).get_thread_count now pid qt) ∧
    (now - tc.last_refresh ≤ 5 → ∀ n, alookup tc.cache pid = some n →
      tc.get_thread_count now pid qt = (some n, tc)) ∧
    (now - tc.last_refresh ≤ 5 → alookup tc.cache pid = none → ∀ n, qt = some n →
      tc.get_thread_count now pid qt = (some n, { tc with cache := (pid, n) :: tc.cache })) ∧
    (now - tc.last_refresh ≤ 5 → alookup tc.cache pid = none → qt = none →
      tc.get_thread_count now pid qt = (none, tc)) := by
  refine ⟨?_, ?_, ?_, ?_, ?_, ?_, ?_⟩
  · intro h
    simp only [UserCache.get_user, UserCache.new]
    rw [if_pos h, if_neg (by simp)]
  · intro h u hu
    simp only [UserCache.get_user]
    rw [if_neg (by omega), hu]
  · intro h hu
    simp only [UserCache.get_user]
    rw [if_neg (by omega), hu]
  · intro h
    simp only [ThreadCache.get_thread_count, ThreadCache.new]
    rw [if_pos h, if_neg (by simp)]
  · intro h n hn
    simp only [ThreadCache.get_thread_count]
    rw [if_neg (by omega), hn]
  · intro h hn n hq
    simp only [ThreadCache.get_thread_count]
    rw [if_neg (by omega), hn, hq]
  · intro h hn hq
    simp only [ThreadCache.get_thread_count]
    rw [if_neg (by omega), hn, hq]

/-- Witness for C7 (amended): each branch applied at concrete inputs. -/
theorem claim_C7_metadata_cache_lookup_witness :
    UserCache.get_user ⟨[(1, "alice")], 0⟩ 40 1 none =
      UserCache.get_user (UserCache.new 40) 40 1 none ∧
    UserCache.get_user ⟨[(1, "alice")], 0⟩ 20 1 none = ("alice", ⟨[(1, "alice")], 0⟩) ∧
    UserCache.get_user ⟨[], 0⟩ 20 2 (some "bob") = ("bob", ⟨[(2, "bob")], 0⟩) ∧
    ThreadCache.get_thread_count ⟨[], 0⟩ 3 4 (some 7) = (some 7, ⟨[(4, 7)], 0⟩) ∧
    ThreadCache.get_thread_count ⟨[], 0⟩ 3 4 none = (none, ⟨[], 0⟩) :=
  ⟨(claim_C7_metadata_cache_lookup ⟨[(1, "alice")], 0⟩ ⟨[], 0⟩ 40 1 none none).1
      (by decide),
   (claim_C7_metadata_cache_lookup ⟨[(1, "alice")], 0⟩ ⟨[], 0⟩ 20 1 none none).2.1
      (by decide) "alice" rfl,
   (claim_C7_metadata_cache_lookup ⟨[], 0⟩ ⟨[], 0⟩ 20 2 (some "bob") none).2.2.1
      (by decide) rfl,
   (claim_C7_metadata_cache_lookup ⟨[], 0⟩ ⟨[], 0⟩ 3 4 none (some 7)).2.2.2.2.2.1
      (by decide) rfl 7 rfl,
   (claim_C7_metadata_cache_lookup ⟨[], 0⟩ ⟨[], 0⟩ 3 4 none none).2.2.2.2.2.2
      (by decide) rfl rfl⟩

/-- C8 counterexample: the claim states that on a failed thread-count lookup
the cache "stores and returns a sentinel value (… an absent thread count)";
but a failed lookup stores nothing — here the failed lookup for pid 7 leaves
the map holding only its prior unrelated entry, with no entry for 7. -/
theorem claim_C8_counterexample :
    ThreadCache.get_thread_count ⟨[(3, 2)], 0⟩ 0 7 none = (none, ⟨[(3, 2)], 0⟩) ∧
    alookup (ThreadCache.get_thread_count ⟨[(3, 2)], 0⟩ 0 7 none).2.cache 7 = none :=
  ⟨rfl, rfl⟩

/-- C8 (amended): when a metadata query fails or returns empty/unparseable
output, no error is propagated: the user lookup stores and returns the
sentinel "unknown" — so an immediately repeated lookup for the same pid is
served from the cache without re-querying — while the thread lookup returns an
absent count but stores nothing (so only the fact that each pid is looked up
at most once per collection cycle prevents an in-cycle retry). -/
theorem claim_C8_metadata_failure_policy (uc : UserCache) (tc : ThreadCache)
    (now pid : Nat)
    (hu : now - uc.last_refresh ≤ 30) (humiss : alookup uc.cache pid = none)
    (ht : now - tc.last_refresh ≤ 5) (htmiss : alookup tc.cache pid = none) :
    (∀ q, q = none ∨ q = some "" →
      uc.get_user now pid q = ("unknown", { uc with cache := (pid, "unknown") :: uc.cache })) ∧
    (∀ q₂, UserCache.get_user { uc with cache := (pid, "unknown") :: uc.cache } now pid q₂ =
      ("unknown", { uc with cache := (pid, "unknown") :: uc.cache })) ∧
    tc.get_thread_count now pid none = (none, tc) := by
  refine ⟨?_, ?_, ?_⟩
  · rintro q (rfl | rfl) <;>
      · simp only [UserCache.get_user]
        rw [if_neg (by omega), humiss]
        rfl
  · intro q₂
    simp only [UserCache.get_user]
    rw [if_neg (by simpa using hu)]
    simp [alookup]
  · simp only [ThreadCache.get_thread_count]
    rw [if_neg (by omega), htmiss]

/-- Witness for C8 (amended) at a concrete failed lookup for pid 9. -/
theorem claim_C8_metadata_failure_policy_witness :
    UserCache.get_user ⟨[], 0⟩ 4 9 none = ("unknown", ⟨[(9, "unknown")], 0⟩) ∧
    UserCache.get_user ⟨[(9, "unknown")], 0⟩ 4 9 (some "root") =
      ("unknown", ⟨[(9, "unknown")], 0⟩) ∧
    ThreadCache.get_thread_count ⟨[], 0⟩ 2 9 none = (none, ⟨[], 0⟩) :=
  ⟨((claim_C8_metadata_failure_policy ⟨[], 0⟩ ⟨[], 0⟩ 4 9 (by decide) rfl (by decide)
      rfl).1) none (Or.inl rfl),
   ((claim_C8_metadata_failure_policy ⟨[], 0⟩ ⟨[], 0⟩ 4 9 (by decide) rfl (by decide)
      rfl).2.1) (some "root"),
   ((claim_C8_metadata_failure_policy ⟨[], 0⟩ ⟨[], 0⟩ 2 9 (by decide) rfl (by decide)
      rfl).2.2)⟩

/-- `BATCH_SIZE` (src/processes.rs:221): chunk size of the collection loop. -/
def BATCH_SIZE : Nat := 50

/-- One raw OS sample per process: the tuple captured from `system.processes()`
by `get_processes` (src/processes.rs:367-394), in the source's field order. -/
structure RawSample where
  pid : Nat
  cmd : List String
  name : String
  cpu_usage : F32
  memory : Nat
  status : SysStatus
  run_time : Nat
  parent : Option Nat
  deriving DecidableEq, Repr

/-- The collector state threaded through one `get_processes` cycle: the
Process Cache plus the two Metadata Caches (each behind its own `Mutex` in the
source; the cycle holds the process-cache lock throughout, so the cycle is a
pure state transformation). -/
structure GPState where
  cache : List (Nat × ProcessInfo)
  userCache : UserCache
  threadCache : ThreadCache
  deriving DecidableEq, Repr

/-- The `(user, threads, parent_pid)` resolution of `get_processes`
(src/processes.rs:413-435). `uqv`/`tqv` are the external-query oracles for
this pid. The source's final `else` arm (`("unknown", None, None)`) is
unreachable — it is only taken when the pid is cached and `get` still fails —
but is embedded faithfully. -/
def resolveMeta (st : GPState) (pid : Nat) (sparent : Option Nat) (isFull : Bool)
    (now : Nat) (uqv : Option String) (tqv : Option Nat) :
    String × Option Nat × Option Nat × UserCache × ThreadCache :=
  if isFull || (alookup st.cache pid).isNone then
    let u := if isFull then st.userCache.get_user now pid uqv
      else ("fetching...", st.userCache)
    let t := if isFull then st.threadCache.get_thread_count now pid tqv
      else (none, st.threadCache)
    (u.1, t.1, sparent, u.2, t.2)
  else
    match alookup st.cache pid with
    | some cached => (cached.user, cached.threads, cached.parent, st.userCache, st.threadCache)
    | none => ("unknown", none, none, st.userCache, st.threadCache)

/-- The per-sample body of the `get_processes` loop (src/processes.rs:400-467):
status conversion, metadata resolution, then merge into the Process Cache —
an existing entry gets its cheap fields updated via `update_history` always and
its expensive fields (`status`, `user`, `threads`, `parent`, `cmd`) overwritten
only on a full refresh; an unseen pid gets a freshly constructed entry
inserted. Returns the updated collector state and the snapshot pushed into the
batch output. -/
def processOne (st : GPState) (s : RawSample) (isFull : Bool) (now : Nat)
    (uq : Nat → Option String) (tq : Nat → Option Nat) : GPState × ProcessInfo :=
  let pid := s.pid
  let status := convertStatus s.status
  let meta := resolveMeta st pid s.parent isFull now (uq pid) (tq pid)
  match alookup st.cache pid with
  | some cached =>
      let upd0 := cached.update_history s.cpu_usage s.memory now
      let upd := if isFull then
          { upd0 with
            status := status
            user := meta.1
            threads := meta.2.1
            parent := meta.2.2.1
            cmd := s.cmd }
        else upd0
      (⟨aset st.cache pid upd, meta.2.2.2.1, meta.2.2.2.2⟩, upd)
  | none =>
      let pi := ProcessInfo.new pid s.name s.cpu_usage s.memory status meta.1
        s.run_time s.cmd meta.2.1 meta.2.2.1 now
      (⟨(pid, pi) :: st.cache, meta.2.2.2.1, meta.2.2.2.2⟩, pi)

/-- The merge loop of `get_processes` over the whole sample list, accumulating
the published snapshots in collection order. The source iterates in chunks of
`BATCH_SIZE` with a 5 ms cooperative sleep between chunks
(src/processes.rs:397-477); the sleep only yields the scheduler and has no
effect on the computed state, so the loop is embedded flat. -/
def mergeAll (st : GPState) (acc : List ProcessInfo) (sample : List RawSample)
    (isFull : Bool) (now : Nat) (uq : Nat → Option String) (tq : Nat → Option Nat) :
    GPState × List ProcessInfo :=
  match sample with
  | [] => (st, acc)
  | s :: rest =>
      let pr := processOne st s isFull now uq tq
      mergeAll pr.1 (acc ++ [pr.2]) rest isFull now uq tq

/-- `ProcessMonitor::get_processes` (src/processes.rs:361-483): merge every raw
sample into the Process Cache, then — after all merges — evict every cached
entry whose pid is not in the cycle's active set
(`process_cache.retain(|pid, _| active_pids.contains(pid))`,
src/processes.rs:480), and return the collected snapshot list. -/
def get_processes (st : GPState) (sample : List RawSample) (isFull : Bool)
    (now : Nat) (uq : Nat → Option String) (tq : Nat → Option Nat) :
    GPState × List ProcessInfo :=
  let r := mergeAll st [] sample isFull now uq tq
  let active := sample.map (fun s => s.pid)
  (⟨r.1.cache.filter (fun e => decide (e.1 ∈ active)), r.1.userCache, r.1.threadCache⟩, r.2)

theorem alookup_isSome {α : Type} (m : List (Nat × α)) (k : Nat) :
    (alookup m k).isSome ↔ k ∈ m.map Prod.fst := by
  induction m with
  | nil => simp [alookup]
  | cons e rest ih =>
      by_cases h : e.1 = k
      · simp [alookup, h]
      · simp [alookup, h, ih, Ne.symm h]

theorem aset_keys {α : Type} (m : List (Nat × α)) (k : Nat) (v : α) :
    (aset m k v).map Prod.fst = m.map Prod.fst := by
  induction m with
  | nil => simp [aset]
  | cons e rest ih =>
      by_cases h : e.1 = k
      · simpa [aset, h] using ih
      · simpa [aset, h] using ih

theorem alookup_filter_isSome {α : Type} (m : List (Nat × α)) (active : List Nat)
    (k : Nat) :
    (alookup (m.filter (fun e => decide (e.1 ∈ active))) k).isSome ↔
      ((alookup m k).isSome ∧ k ∈ active) := by
  induction m with
  | nil => simp [alookup]
  | cons e rest ih =>
      by_cases hk : e.1 = k
      · subst hk
        by_cases ha : e.1 ∈ active
        · simp [alookup, ha, List.filter_cons]
        · simp [alookup, ha, List.filter_cons, ih]
      · by_cases ha : e.1 ∈ active
        · simp [alookup, hk, ha, List.filter_cons, ih]
        · simp [alookup, hk, ha, List.filter_cons, ih]

theorem processOne_keys (st : GPState) (s : RawSample) (isFull : Bool) (now : Nat)
    (uq : Nat → Option String) (tq : Nat → Option Nat) :
    ((processOne st s isFull now uq tq).1.cache).map Prod.fst =
      if (alookup st.cache s.pid).isSome then st.cache.map Prod.fst
      else s.pid :: st.cache.map Prod.fst := by
  cases h : alookup st.cache s.pid with
  | some cached => simp [processOne, h, aset_keys]
  | none => simp [processOne, h]

theorem mergeAll_keys_mono (sample : List RawSample) (st : GPState)
    (acc : List ProcessInfo) (isFull : Bool) (now : Nat)
    (uq : Nat → Option String) (tq : Nat → Option Nat) (k : Nat)
    (hk : k ∈ st.cache.map Prod.fst) :
    k ∈ ((mergeAll st acc sample isFull now uq tq).1.cache).map Prod.fst := by
  induction sample generalizing st acc with
  | nil => simpa [mergeAll] using hk
  | cons s rest ih =>
      simp only [mergeAll]
      apply ih
      rw [processOne_keys]
      split <;> simp [hk]

theorem mergeAll_keys_sample (sample : List RawSample) (st : GPState)
    (acc : List ProcessInfo) (isFull : Bool) (now : Nat)
    (uq : Nat → Option String) (tq : Nat → Option Nat) (s : RawSample)
    (hs : s ∈ sample) :
    s.pid ∈ ((mergeAll st acc sample isFull now uq tq).1.cache).map Prod.fst := by
  induction sample generalizing st acc with
  | nil => cases hs
  | cons t rest ih =>
      simp only [mergeAll]
      rcases List.mem_cons.mp hs with h | h
      · subst h
        apply mergeAll_keys_mono
        rw [processOne_keys]
        by_cases hsome : (alookup st.cache s.pid).isSome
        · rw [if_pos hsome]
          exact (alookup_isSome _ _).mp hsome
        · rw [if_neg hsome]
          simp
      · exact ih _ _ h

theorem mergeAll_keys_subset (sample : List RawSample) (st : GPState)
    (acc : List ProcessInfo) (isFull : Bool) (now : Nat)
    (uq : Nat → Option String) (tq : Nat → Option Nat) (k : Nat)
    (hk : k ∈ ((mergeAll st acc sample isFull now uq tq).1.cache).map Prod.fst) :
    k ∈ st.cache.map Prod.fst ∨ k ∈ sample.map (fun s => s.pid) := by
  induction sample generalizing st acc with
  | nil => left; simpa [mergeAll] using hk
  | cons s rest ih =>
      simp only [mergeAll] at hk
      rcases ih _ _ hk with h | h
      · rw [processOne_keys] at h
        by_cases hsome : (alookup st.cache s.pid).isSome
        · rw [if_pos hsome] at h
          left; exact h
        · rw [if_neg hsome] at h
          rcases List.mem_cons.mp h with h' | h'
          · right; simp [h']
          · left; exact h'
      · right; simp [h]

/-- C4: after one collection cycle (`get_processes` over a given raw OS sample
set), the Process Cache holds an entry for a pid iff that pid occurred in the
cycle's raw sample — stale entries are evicted, every sampled pid is present,
and this holds for any prior cache contents; the eviction
(`retain`) is structurally the last cache operation of `get_processes`, after
all merges and before the snapshot list is returned. -/
theorem claim_C4_cache_eviction (st : GPState) (sample : List RawSample)
    (isFull : Bool) (now : Nat) (uq : Nat → Option String) (tq : Nat → Option Nat)
    (pid : Nat) :
    (alookup (get_processes st sample isFull now uq tq).1.cache pid).isSome ↔
      pid ∈ sample.map (fun s => s.pid) := by
  simp only [get_processes]
  rw [alookup_filter_isSome]
  constructor
  · rintro ⟨_, hmem⟩
    exact hmem
  · intro hmem
    refine ⟨?_, hmem⟩
    rcases List.mem_map.mp hmem with ⟨s, hs, hpid⟩
    rw [alookup_isSome]
    rw [← hpid]
    exact mergeAll_keys_sample sample st [] isFull now uq tq s hs

theorem alookup_aset_self {α : Type} (m : List (Nat × α)) (k : Nat) (v w : α)
    (h : alookup m k = some w) : alookup (aset m k v) k = some v := by
  induction m with
  | nil => simp [alookup] at h
  | cons e rest ih =>
      by_cases he : e.1 = k
      · have hhead : aset (e :: rest) k v = (k, v) :: aset rest k v := by
          simp [aset, he]
        rw [hhead]
        simp [alookup]
      · have hhead : aset (e :: rest) k v = e :: aset rest k v := by
          simp [aset, he]
        have h' : alookup rest k = some w := by
          simpa [alookup, he] using h
        rw [hhead]
        simpa [alookup, he] using ih h' 

/-- C1 counterexample: the claim says a pid observed for the first time is
always enriched with a non-placeholder user and an attempted thread-count
resolution even on a partial cycle; but on a partial refresh
(`is_full_refresh = false`) a brand-new pid is inserted with the placeholder
user "fetching..." and `threads = None` — the metadata oracles (which would
answer "root" / 4) are never consulted. -/
theorem claim_C1_counterexample :
    ((get_processes ⟨[], UserCache.new 0, ThreadCache.new 0⟩
        [⟨1, [], "init", 0, 0, SysStatus.Run, 0, none⟩] false 0
        (fun _ => some "root") (fun _ => some 4)).2.map
      (fun p => (p.user, p.threads)) = [("fetching...", none)]) ∧
    ((alookup (get_processes ⟨[], UserCache.new 0, ThreadCache.new 0⟩
        [⟨1, [], "init", 0, 0, SysStatus.Run, 0, none⟩] false 0
        (fun _ => some "root") (fun _ => some 4)).1.cache 1).map
      (fun p => (p.user, p.threads)) = some ("fetching...", none)) := by
  constructor
  · rfl
  · rfl

/-- C1 (corrected): a pid with no entry in the Process Cache is inserted with
metadata resolved through the Metadata Caches exactly when the observing cycle
is a full refresh; when the first sighting happens on a partial cycle the new
entry instead carries the placeholder user "fetching..." and no thread-count
resolution is attempted (`threads = none`), until a later full refresh
re-resolves it. -/
theorem claim_C1_first_sighting (st : GPState) (s : RawSample) (isFull : Bool)
    (now : Nat) (uq : Nat → Option String) (tq : Nat → Option Nat)
    (hnew : alookup st.cache s.pid = none) :
    ((processOne st s isFull now uq tq).2.user =
      if isFull then (st.userCache.get_user now s.pid (uq s.pid)).1
      else "fetching...") ∧
    ((processOne st s isFull now uq tq).2.threads =
      if isFull then (st.threadCache.get_thread_count now s.pid (tq s.pid)).1
      else none) ∧
    alookup (processOne st s isFull now uq tq).1.cache s.pid =
      some (processOne st s isFull now uq tq).2 := by
  cases isFull with
  | true =>
      refine ⟨?_, ?_, ?_⟩ <;>
        simp [processOne, resolveMeta, hnew, ProcessInfo.new, alookup]
  | false =>
      refine ⟨?_, ?_, ?_⟩ <;>
        simp [processOne, resolveMeta, hnew, ProcessInfo.new, alookup]

/-- Witness for C1 (corrected): a first sighting on a full refresh resolves
the user and thread count through the caches and their oracles. -/
theorem claim_C1_first_sighting_witness :
    (processOne ⟨[], UserCache.new 0, ThreadCache.new 0⟩
      ⟨1, [], "init", 0, 0, SysStatus.Run, 0, none⟩ true 0
      (fun _ => some "root") (fun _ => some 4)).2.user = "root" ∧
    (processOne ⟨[], UserCache.new 0, ThreadCache.new 0⟩
      ⟨1, [], "init", 0, 0, SysStatus.Run, 0, none⟩ true 0
      (fun _ => some "root") (fun _ => some 4)).2.threads = some 4 := by
  have h := claim_C1_first_sighting ⟨[], UserCache.new 0, ThreadCache.new 0⟩
    ⟨1, [], "init", 0, 0, SysStatus.Run, 0, none⟩ true 0
    (fun _ => some "root") (fun _ => some 4) rfl
  exact ⟨h.1.trans (by decide), h.2.1.trans (by decide)⟩

/-- C5: a pid already in the Process Cache that is observed again by a partial
refresh (`is_full_refresh = false`) has exactly its cheap fields updated — the
result is `update_history` applied to the cached entry, so `cpu_usage`,
`memory`, both histories and `last_updated` change, while `user` (e.g. a cached
"alice"), `threads`, `status`, `parent`, `cmd` (and `name`) are carried over
unchanged; the updated entry is stored back under the same pid and the
metadata caches are untouched. -/
theorem claim_C5_no_regression (st : GPState) (s : RawSample) (now : Nat)
    (uq : Nat → Option String) (tq : Nat → Option Nat) (P : ProcessInfo)
    (hcached : alookup st.cache s.pid = some P) :
    (processOne st s false now uq tq).2 =
      P.update_history s.cpu_usage s.memory now ∧
    (processOne st s false now uq tq).2.user = P.user ∧
    (processOne st s false now uq tq).2.threads = P.threads ∧
    (processOne st s false now uq tq).2.status = P.status ∧
    (processOne st s false now uq tq).2.parent = P.parent ∧
    (processOne st s false now uq tq).2.cmd = P.cmd ∧
    (processOne st s false now uq tq).2.name = P.name ∧
    (processOne st s false now uq tq).2.cpu_usage = s.cpu_usage ∧
    (processOne st s false now uq tq).2.memory = s.memory ∧
    (processOne st s false now uq tq).2.last_updated = now ∧
    alookup (processOne st s false now uq tq).1.cache s.pid =
      some (processOne st s false now uq tq).2 ∧
    (processOne st s false now uq tq).1.userCache = st.userCache ∧
    (processOne st s false now uq tq).1.threadCache = st.threadCache := by
  have hout : (processOne st s false now uq tq).2 =
      P.update_history s.cpu_usage s.memory now := by
    simp [processOne, hcached]
  have hcache : (processOne st s false now uq tq).1.cache =
      aset st.cache s.pid (P.update_history s.cpu_usage s.memory now) := by
    simp [processOne, hcached]
  refine ⟨hout, ?_, ?_, ?_, ?_, ?_, ?_, ?_, ?_, ?_, ?_, ?_, ?_⟩
  · rw [hout]; simp [ProcessInfo.update_history]
  · rw [hout]; simp [ProcessInfo.update_history]
  · rw [hout]; simp [ProcessInfo.update_history]
  · rw [hout]; simp [ProcessInfo.update_history]
  · rw [hout]; simp [ProcessInfo.update_history]
  · rw [hout]; simp [ProcessInfo.update_history]
  · rw [hout]; simp [ProcessInfo.update_history]
  · rw [hout]; simp [ProcessInfo.update_history]
  · rw [hout]; simp [ProcessInfo.update_history]
  · rw [hcache, hout]
    exact alookup_aset_self st.cache s.pid _ P hcached
  · simp [processOne, hcached, resolveMeta]
  · simp [processOne, hcached, resolveMeta]

/-- Witness for C5 at a concrete cached entry with `user = "alice"`. -/
theorem claim_C5_no_regression_witness :
    (processOne
      ⟨[(1, ProcessInfo.new 1 "init" 0 0 ProcessStatus.Running "alice" 0 []
          (some 2) none 0)], UserCache.new 0, ThreadCache.new 0⟩
      ⟨1, ["x"], "init", 5, 7, SysStatus.Run, 3, none⟩ false 1
      (fun _ => some "root") (fun _ => some 9)).2.user = "alice" ∧
    (processOne
      ⟨[(1, ProcessInfo.new 1 "init" 0 0 ProcessStatus.Running "alice" 0 []
          (some 2) none 0)], UserCache.new 0, ThreadCache.new 0⟩
      ⟨1, ["x"], "init", 5, 7, SysStatus.Run, 3, none⟩ false 1
      (fun _ => some "root") (fun _ => some 9)).2.threads = some 2 ∧
    (processOne
      ⟨[(1, ProcessInfo.new 1 "init" 0 0 ProcessStatus.Running "alice" 0 []
          (some 2) none 0)], UserCache.new 0, ThreadCache.new 0⟩
      ⟨1, ["x"], "init", 5, 7, SysStatus.Run, 3, none⟩ false 1
      (fun _ => some "root") (fun _ => some 9)).2.cpu_usage = 5 ∧
    (processOne
      ⟨[(1, ProcessInfo.new 1 "init" 0 0 ProcessStatus.Running "alice" 0 []
          (some 2) none 0)], UserCache.new 0, ThreadCache.new 0⟩
      ⟨1, ["x"], "init", 5, 7, SysStatus.Run, 3, none⟩ false 1
      (fun _ => some "root") (fun _ => some 9)).2.memory = 7 := by
  have h := claim_C5_no_regression
    ⟨[(1, ProcessInfo.new 1 "init" 0 0 ProcessStatus.Running "alice" 0 []
        (some 2) none 0)], UserCache.new 0, ThreadCache.new 0⟩
    ⟨1, ["x"], "init", 5, 7, SysStatus.Run, 3, none⟩ 1
    (fun _ => some "root") (fun _ => some 9)
    (ProcessInfo.new 1 "init" 0 0 ProcessStatus.Running "alice" 0 [] (some 2) none 0)
    rfl
  exact ⟨h.2.1.trans (by decide), h.2.2.1.trans (by decide),
    h.2.2.2.2.2.2.2.1.trans (by decide), h.2.2.2.2.2.2.2.2.1.trans (by decide)⟩

/-- The monitor state threaded through `collect_and_send_processes`: the
collector state of `get_processes` plus the `last_full_refresh` timestamp
(src/processes.rs:211-219). -/
structure MonState where
  processCache : List (Nat × ProcessInfo)
  userCache : UserCache
  threadCache : ThreadCache
  lastFullRefresh : Nat
  deriving DecidableEq, Repr

/-- `ProcessMonitor::collect_and_send_processes` (src/processes.rs:317-358):
decides the refresh mode (`force_full_refresh || last_full_refresh.elapsed() >
10 s`), resets the last-full-refresh timestamp only on a full refresh, then
runs `get_processes` in the chosen mode over the freshly read OS sample.
Returns the new monitor state, the refresh mode used, and the snapshot list
sent over the update channel (the `LoadingStatus`/`SystemInfo` sends are pure
I/O and carry no monitor state). -/
def collect_and_send_processes (m : MonState) (force_full_refresh : Bool)
    (now : Nat) (sample : List RawSample) (uq : Nat → Option String)
    (tq : Nat → Option Nat) : MonState × Bool × List ProcessInfo :=
  let isFull := force_full_refresh || decide (now - m.lastFullRefresh > 10)
  let lastFull := if isFull then now else m.lastFullRefresh
  let r := get_processes ⟨m.processCache, m.userCache, m.threadCache⟩ sample isFull now uq tq
  (⟨r.1.cache, r.1.userCache, r.1.threadCache, lastFull⟩, isFull, r.2)

/-- C6: a collection cycle is a full refresh exactly when it was explicitly
requested (`force_full_refresh = true`, as set when a refresh-request signal
is received by the `tokio::select!` loop of `start_monitoring`) or more than
10 seconds have elapsed since the last full refresh; a full refresh resets the
last-full-refresh timestamp to the current instant, a partial one leaves it
unchanged; and the cycle's `get_processes` pass runs in exactly that mode. -/
theorem claim_C6_full_refresh_trigger (m : MonState) (force_full_refresh : Bool)
    (now : Nat) (sample : List RawSample) (uq : Nat → Option String)
    (tq : Nat → Option Nat) :
    ((collect_and_send_processes m force_full_refresh now sample uq tq).2.1 = true ↔
      (force_full_refresh = true ∨ 10 < now - m.lastFullRefresh)) ∧
    ((collect_and_send_processes m force_full_refresh now sample uq tq).1.lastFullRefresh =
      if force_full_refresh = true ∨ 10 < now - m.lastFullRefresh then now
      else m.lastFullRefresh) ∧
    ((collect_and_send_processes m force_full_refresh now sample uq tq).2.2 =
      (get_processes ⟨m.processCache, m.userCache, m.threadCache⟩ sample
        (collect_and_send_processes m force_full_refresh now sample uq tq).2.1 now
        uq tq).2) := by
  refine ⟨?_, ?_, ?_⟩
  · simp [collect_and_send_processes]
  · by_cases h : force_full_refresh = true ∨ 10 < now - m.lastFullRefresh
    · rw [if_pos h]
      have hb : (force_full_refresh || decide (now - m.lastFullRefresh > 10)) = true := by
        rcases h with h | h <;> simp [h]
      simp [collect_and_send_processes, hb]
    · rw [if_neg h]
      push_neg at h
      obtain ⟨hf, hle⟩ := h
      have hf' : force_full_refresh = false := by
        cases force_full_refresh
        · rfl
        · exact absurd rfl hf
      have hb : (force_full_refresh || decide (now - m.lastFullRefresh > 10)) = false := by
        simp [hf']
        omega
      simp [collect_and_send_processes, hb]
  · simp [collect_and_send_processes]

/-- The platform discriminator of the `cfg!(unix)` / `cfg!(windows)` compile-time
dispatch in `kill_process` (src/processes.rs:486-501). -/
inductive Platform where
  | unix
  | windows
  | other
  deriving DecidableEq, Repr

/-- The termination command `kill_process` invokes on each platform
(src/processes.rs:487-497): `kill -9 <pid>` on Unix-like systems, a forced
`taskkill /F /PID <pid>` on Windows, nothing elsewhere. -/
def killInvocation (plat : Platform) (pid : Nat) : Option (String × List String) :=
  match plat with
  | .unix => some ("kill", ["-9", toString pid])
  | .windows => some ("taskkill", ["/F", "/PID", toString pid])
  | .other => none

/-- `ProcessMonitor::kill_process` (src/processes.rs:485-502). `statusResult`
models `Command::status().map(|s| s.success())`: `some b` means the command ran
and reported success flag `b`; `none` means the command could not be run
(`unwrap_or(false)` swallows the error). The function's result depends on
nothing but the platform and this command outcome — it neither waits for nor
inspects the target process's actual exit. -/
def kill_process (plat : Platform) (pid : Nat) (statusResult : Option Bool) : Bool :=
  match plat with
  | .unix => statusResult.getD false
  | .windows => statusResult.getD false
  | .other => false

/-- C9: `kill_process` invokes the platform's termination facility (`kill -9`
on Unix-like systems, forced `taskkill` on Windows), returns `true` exactly
when that command ran and reported success, and returns `false` — rather than
raising an error — on any other platform or whenever the command cannot run;
being a function of only the platform and the command outcome, it neither
waits for nor verifies the target's actual exit. -/
theorem claim_C9_kill_process (plat : Platform) (pid : Nat) (r : Option Bool) :
    (kill_process plat pid r = true ↔
      ((plat = Platform.unix ∨ plat = Platform.windows) ∧ r = some true)) ∧
    killInvocation Platform.unix pid = some ("kill", ["-9", toString pid]) ∧
    killInvocation Platform.windows pid = some ("taskkill", ["/F", "/PID", toString pid]) ∧
    killInvocation Platform.other pid = none ∧
    kill_process Platform.other pid r = false ∧
    kill_process plat pid none = false := by
  refine ⟨?_, rfl, rfl, rfl, rfl, ?_⟩
  · cases plat <;> cases r with
    | none => simp [kill_process]
    | some b => cases b <;> simp [kill_process]
  · cases plat <;> simp [kill_process]

/-- Fresh-channel allocator: `tokio::sync::mpsc` channels are identified by
their order of creation; `mpsc::channel(10)` hands out a connected
(sender, receiver) pair on the next fresh identifier. -/
structure ChanAlloc where
  next : Nat
  deriving DecidableEq, Repr

/-- `mpsc::channel`: returns the fresh channel id and the advanced allocator. -/
def allocChan (a : ChanAlloc) : Nat × ChanAlloc := (a.next, ⟨a.next + 1⟩)

/-- The channel-wiring state of `struct ProcessMonitor` (src/processes.rs:211-219)
relevant to the refresh signal: `refresh_receiver` is the channel whose
receiving end the `tokio::select!` loop of `start_monitoring` listens on
(src/processes.rs:295-300). -/
structure ProcessMonitor where
  refresh_receiver : Nat
  deriving DecidableEq, Repr

/-- `ProcessMonitor::new` (src/processes.rs:224-250): creates the refresh
channel, stores its receiving end in the monitor and returns the matching
`refresh_tx` sender alongside the monitor. -/
def ProcessMonitor.new (a : ChanAlloc) : ProcessMonitor × Nat × ChanAlloc :=
  let c := allocChan a
  ({ refresh_receiver := c.1 }, c.1, c.2)

/-- `ProcessMonitor::get_refresh_sender` (src/processes.rs:252-255): creates a
brand-new channel (`let (tx, _) = mpsc::channel(10)`), immediately discards its
receiving end, and returns its sender; the monitor's own state is not read. -/
def ProcessMonitor.get_refresh_sender (m : ProcessMonitor) (a : ChanAlloc) :
    Nat × ChanAlloc :=
  let c := allocChan a
  (c.1, c.2)

/-- A message sent through a sender on channel `senderChan` reaches the
monitoring loop iff that channel is the one its `refresh_receiver` listens on. -/
def monitorReceives (m : ProcessMonitor) (senderChan : Nat) : Prop :=
  senderChan = m.refresh_receiver

/-- C10: `get_refresh_sender` returns the sender of a freshly allocated
channel whose receiver is dropped, so (for any monitor whose refresh channel
was allocated earlier, i.e. below the allocator's fresh id) the returned
sender is NOT the channel the monitoring loop listens on and a refresh request
sent through it is never received; only the sender returned by
`ProcessMonitor::new` is connected to the monitor's `refresh_receiver`. -/
theorem claim_C10_dummy_refresh_sender (a a' : ChanAlloc) (m : ProcessMonitor)
    (halloc : m.refresh_receiver < a.next) :
    (m.get_refresh_sender a).1 = a.next ∧
    (m.get_refresh_sender a).1 ≠ m.refresh_receiver ∧
    ¬ monitorReceives m (m.get_refresh_sender a).1 ∧
    (ProcessMonitor.new a').2.1 = (ProcessMonitor.new a').1.refresh_receiver ∧
    monitorReceives (ProcessMonitor.new a').1 (ProcessMonitor.new a').2.1 := by
  refine ⟨rfl, ?_, ?_, rfl, rfl⟩
  · simp only [ProcessMonitor.get_refresh_sender, allocChan]
    omega
  · simp only [monitorReceives, ProcessMonitor.get_refresh_sender, allocChan]
    omega

/-- Witness for C10: a monitor created from a fresh allocator, with
`get_refresh_sender` called on the allocator state left by `new`. -/
theorem claim_C10_dummy_refresh_sender_witness :
    (ProcessMonitor.get_refresh_sender (ProcessMonitor.new ⟨0⟩).1
      (ProcessMonitor.new ⟨0⟩).2.2).1 ≠ (ProcessMonitor.new ⟨0⟩).1.refresh_receiver :=
  (claim_C10_dummy_refresh_sender (ProcessMonitor.new ⟨0⟩).2.2 ⟨0⟩
    (ProcessMonitor.new ⟨0⟩).1 (by decide)).2.1
